import Mathlib

/-!
Shallow embedding of the real-time speech-streaming pipeline of `app.py`
(ring buffer, VAD gate with hangover, decode-scheduler tick bodies, session
start/stop, SSE fan-out), together with theorems settling the spec claims.

Audio samples are modelled as `Int` values: none of the verified operations
inspects sample values (normalisation, 16-bit conversion and the acoustic
model are folded into an abstract engine oracle `List Int → String`), so the
carrier type is irrelevant to the claims.
-/

namespace App

/-- Canonical ASR sample rate: `ASR_SR = 16000` (app.py line 31). -/
def ASR_SR : Nat := 16000

/-- `VAD_HANGOVER_MS = 300` (app.py line 42). -/
def VAD_HANGOVER_MS : Nat := 300

/-- `VAD_FRAME_MS = 20` (app.py line 41). -/
def VAD_FRAME_MS : Nat := 20

/-- Hangover reset value `int(VAD_HANGOVER_MS / VAD_FRAME_MS)` (app.py line 293). -/
def hangoverFrames : Nat := VAD_HANGOVER_MS / VAD_FRAME_MS

/-- Samples in the partial-decode window: `int(WINDOW_SECONDS * ASR_SR)` with
`WINDOW_SECONDS = 8.0` (app.py lines 34, 180). -/
def windowSamples : Nat := 8 * ASR_SR

/-- Suffix of length `n`: the most recent `n` elements of `l` (all of `l` when
`l` is shorter than `n`). -/
def takeLast (n : Nat) (l : List Int) : List Int := l.drop (l.length - n)

/-- Pushing one element onto a Python `deque` with `maxlen = cap`: when full,
the oldest (leftmost) element is evicted; a deque with `maxlen = 0` stays
empty. -/
def dequePush (cap : Nat) (buf : List Int) (a : Int) : List Int :=
  if cap = 0 then []
  else if buf.length < cap then buf ++ [a]
  else buf.drop 1 ++ [a]

/-- `deque.extend(x)`: push the elements of `x` one at a time (app.py line 70). -/
def dequeExtend (cap : Nat) (buf : List Int) (x : List Int) : List Int :=
  x.foldl (dequePush cap) buf

/-- The `Ring` class of app.py: a bounded deque of recent samples plus the
unbounded session accumulator (list of forwarded chunks). -/
structure Ring where
  sr : Nat
  cap : Nat
  buf : List Int
  session : List (List Int)
deriving DecidableEq

/-- `Ring.__init__(sr, max_seconds)`: `buf = deque(maxlen=int(max_seconds*sr))`,
`session = []` (app.py lines 64-67). -/
def Ring.init (sr maxSeconds : Nat) : Ring := ⟨sr, maxSeconds * sr, [], []⟩

/-- The module-level `ring = Ring()` with defaults `sr=ASR_SR`,
`max_seconds=90` (app.py lines 37, 85). -/
def ring0 : Ring := Ring.init ASR_SR 90

/-- `Ring.extend(x)`: `self.buf.extend(x); self.session.append(x)`
(app.py lines 69-71). -/
def Ring.extend (r : Ring) (x : List Int) : Ring :=
  { r with buf := dequeExtend r.cap r.buf x, session := r.session ++ [x] }

/-- Feeding a sequence of chunks through `Ring.extend`. -/
def ringFeed (r : Ring) (chunks : List (List Int)) : Ring :=
  chunks.foldl Ring.extend r

/-- numpy `a[-n:]` for a nonnegative `n`: the last `n` elements, except that
`a[-0:]` is all of `a`. -/
def npTail (n : Nat) (a : List Int) : List Int :=
  if n = 0 then a else takeLast n a

/-- `Ring.latest_window`, parametrised by `n = int(seconds * sr)`: `None` when
fewer than `int(0.5 * sr)` samples are buffered, else the whole buffer when its
length is at most `n`, else the slice `a[-n:]` (app.py lines 73-78). -/
def Ring.latest_window (r : Ring) (n : Nat) : Option (List Int) :=
  if r.buf.length < r.sr / 2 then none
  else some (if r.buf.length ≤ n then r.buf else npTail n r.buf)

/-- `Ring.session_audio()`: `None` when no chunk was ever appended, else the
concatenation of all appended chunks (app.py lines 80-83). -/
def Ring.session_audio (r : Ring) : Option (List Int) :=
  if r.session.isEmpty then none else some r.session.flatten

theorem takeLast_length (n : Nat) (l : List Int) :
    (takeLast n l).length = min n l.length := by
  simp [takeLast]
  omega

theorem takeLast_length_le (n : Nat) (l : List Int) : (takeLast n l).length ≤ n := by
  rw [takeLast_length]
  exact Nat.min_le_left _ _

theorem takeLast_of_length_le (n : Nat) (l : List Int) (h : l.length ≤ n) :
    takeLast n l = l := by
  simp [takeLast, Nat.sub_eq_zero_of_le h]

theorem dequePush_eq_takeLast (cap : Nat) (buf : List Int) (a : Int)
    (h : buf.length ≤ cap) :
    dequePush cap buf a = takeLast cap (buf ++ [a]) := by
  unfold dequePush takeLast
  by_cases hc : cap = 0
  · subst hc
    simp
  · rw [if_neg hc]
    by_cases hl : buf.length < cap
    · have h0 : (buf ++ [a]).length - cap = 0 := by simp; omega
      rw [if_pos hl, h0, List.drop_zero]
    · have hlen : buf.length = cap := by omega
      have h1 : (buf ++ [a]).length - cap = 1 := by simp [hlen]
      rw [if_neg hl, h1, List.drop_append_eq_append_drop]
      have h2 : 1 - buf.length = 0 := by omega
      rw [h2, List.drop_zero]

theorem takeLast_append_takeLast (n : Nat) (l x : List Int) :
    takeLast n (takeLast n l ++ x) = takeLast n (l ++ x) := by
  by_cases h : l.length ≤ n
  · rw [takeLast_of_length_le _ _ h]
  · push_neg at h
    unfold takeLast
    have hlen : (l.drop (l.length - n)).length = n := by simp; omega
    rw [List.drop_append_eq_append_drop, List.drop_append_eq_append_drop,
        List.drop_drop]
    congr 1
    · congr 1
      simp only [List.length_append, List.length_drop, hlen]
      omega
    · congr 1
      simp only [List.length_append, List.length_drop, hlen]
      omega

theorem dequeExtend_eq_takeLast (cap : Nat) (x : List Int) :
    ∀ buf : List Int, buf.length ≤ cap →
      dequeExtend cap buf x = takeLast cap (buf ++ x) := by
  induction x with
  | nil =>
    intro buf h
    simpa [dequeExtend] using (takeLast_of_length_le _ _ h).symm
  | cons a x ih =>
    intro buf h
    have hp := dequePush_eq_takeLast cap buf a h
    have hlen : (dequePush cap buf a).length ≤ cap := by
      rw [hp]; exact takeLast_length_le _ _
    calc dequeExtend cap buf (a :: x)
        = dequeExtend cap (dequePush cap buf a) x := rfl
      _ = takeLast cap (dequePush cap buf a ++ x) := ih _ hlen
      _ = takeLast cap (takeLast cap (buf ++ [a]) ++ x) := by rw [hp]
      _ = takeLast cap ((buf ++ [a]) ++ x) := takeLast_append_takeLast ..
      _ = takeLast cap (buf ++ (a :: x)) := by simp

theorem ringFeed_buf (chunks : List (List Int)) :
    ∀ r : Ring, r.buf.length ≤ r.cap →
      (ringFeed r chunks).buf = takeLast r.cap (r.buf ++ chunks.flatten) ∧
      (ringFeed r chunks).cap = r.cap := by
  induction chunks with
  | nil =>
    intro r h
    have ht := takeLast_of_length_le r.cap r.buf h
    exact ⟨by simp [ringFeed, ht], rfl⟩
  | cons c cs ih =>
    intro r h
    have hx := dequeExtend_eq_takeLast r.cap c r.buf h
    have hlen : (r.extend c).buf.length ≤ (r.extend c).cap := by
      show (dequeExtend r.cap r.buf c).length ≤ r.cap
      rw [hx]; exact takeLast_length_le _ _
    have step : ringFeed r (c :: cs) = ringFeed (r.extend c) cs := rfl
    rcases ih (r.extend c) hlen with ⟨h1, h2⟩
    refine ⟨?_, by rw [step, h2]; rfl⟩
    rw [step, h1]
    show takeLast r.cap (dequeExtend r.cap r.buf c ++ cs.flatten)
        = takeLast r.cap (r.buf ++ (c :: cs).flatten)
    rw [hx, takeLast_append_takeLast]
    simp

/-- C2: for every sequence of sample chunks appended via `Ring.extend` to a
fresh default ring, the buffer length never exceeds the capacity
`int(max_seconds * sr) = 90 * 16000 = 1440000`, and the buffer is exactly the
suffix of the concatenated input holding the most recent
`min(total, capacity)` samples in FIFO order. -/
theorem ring_bound_fifo (chunks : List (List Int)) :
    ring0.cap = 90 * ASR_SR ∧
    (ringFeed ring0 chunks).buf.length ≤ ring0.cap ∧
    (ringFeed ring0 chunks).buf = takeLast ring0.cap chunks.flatten ∧
    (ringFeed ring0 chunks).buf.length = min chunks.flatten.length ring0.cap := by
  have h0 : ring0.buf.length ≤ ring0.cap := by simp [ring0, Ring.init]
  rcases ringFeed_buf chunks ring0 h0 with ⟨h1, _⟩
  have hb : (ringFeed ring0 chunks).buf = takeLast ring0.cap chunks.flatten := by
    rw [h1]; rfl
  refine ⟨rfl, ?_, hb, ?_⟩
  · rw [hb]; exact takeLast_length_le _ _
  · rw [hb, takeLast_length, Nat.min_comm]

/-- Per-connection VAD gate state of the `/ws` handler: the hangover countdown
`hang` and the `voiced_any` flag (app.py lines 253-254). -/
structure GateState where
  hang : Nat
  voicedAny : Bool
deriving DecidableEq

/-- A transcript event as built by `publish(partial=…, final=…, status=…)`
(app.py lines 135-140); the wall-clock `ts` field is omitted. -/
structure Event where
  evPart : Option String
  evFin : Option String
  evStat : Option String
deriving DecidableEq

/-- The module-level mutable state shared by the HTTP handlers and the worker:
the ring, the `run_flag` event and the `final_text` global
(app.py lines 85, 152-153). -/
structure AppState where
  ring : Ring
  runFlag : Bool
  finalText : String
deriving DecidableEq

/-- Processing of one 20 ms frame inside the `/ws` receive loop
(app.py lines 288-297), with the external WebRTC VAD verdict supplied as the
oracle input `isVoice`: a voiced frame is forwarded and resets the hangover, an
unvoiced frame with positive hangover is forwarded and decrements it, and any
other frame is dropped. -/
def wsFrame (r : Ring) (g : GateState) (chunk : List Int) (isVoice : Bool) :
    Ring × GateState :=
  if isVoice then (r.extend chunk, ⟨hangoverFrames, true⟩)
  else if 0 < g.hang then (r.extend chunk, ⟨g.hang - 1, g.voicedAny⟩)
  else (r, g)

/-- One ingested frame at the level of the shared application state: the `/ws`
handler mutates only `ring` and the per-connection gate state; it never reads
or writes `run_flag` or `final_text`. -/
def wsIngest (app : AppState) (g : GateState) (chunk : List Int) (isVoice : Bool) :
    AppState × GateState :=
  let p := wsFrame app.ring g chunk isVoice
  ({ app with ring := p.1 }, p.2)

/-- Folding a sequence of (chunk, VAD-verdict) frames through the gate. -/
def gateRun (r : Ring) (g : GateState) (frames : List (List Int × Bool)) :
    Ring × GateState :=
  frames.foldl (fun p f => wsFrame p.1 p.2 f.1 f.2) (r, g)

/-- `transcribe_array(audio, ASR_SR)` with the opaque acoustic model abstracted
into `engine`: returns `""` when the audio is shorter than `0.5 s`
(`ASR_SR * 0.5 = 8000` samples), otherwise the engine's text for the audio
(RMS normalisation and the wav round-trip are folded into the engine oracle)
(app.py lines 155-172). -/
def transcribe_array (engine : List Int → String) (audio : List Int) : String :=
  if audio.length < ASR_SR / 2 then "" else engine audio

/-- Result of the `/start` handler: the new shared state, the returned status
string, whether a new worker thread was launched, and the published events. -/
structure StartOut where
  state : AppState
  status : String
  workerLaunched : Bool
  events : List Event
deriving DecidableEq

/-- The `/start` handler (app.py lines 218-228): a no-op returning
`already_running` when the run flag is set; otherwise it clears both buffers,
sets the flag, launches the worker and publishes a `started` event with empty
partial and final fields. -/
def start (app : AppState) : StartOut :=
  if app.runFlag then ⟨app, "already_running", false, []⟩
  else
    ⟨⟨⟨app.ring.sr, app.ring.cap, [], []⟩, true, app.finalText⟩, "started", true,
      [⟨some "", some "", some "started"⟩]⟩

/-- Result of the `/stop` handler: the new shared state, the returned status,
the returned final text, whether `transcribe_array` was invoked, and the
published events. -/
structure StopOut where
  state : AppState
  status : String
  finalOut : String
  engineCalled : Bool
  events : List Event
deriving DecidableEq

/-- The `/stop` handler (app.py lines 230-241): when the run flag is clear it
returns `already_stopped` with the stored final text and does nothing else;
otherwise it clears the flag, runs one last full-session decode when more than
`0.5 s` of session audio exists (updating `final_text` and publishing it),
publishes `stopped`, and returns the final text. -/
def stop (engine : List Int → String) (app : AppState) : StopOut :=
  if app.runFlag then
    match app.ring.session_audio with
    | some sess =>
      if ASR_SR / 2 < sess.length then
        ⟨⟨app.ring, false, transcribe_array engine sess⟩, "stopped",
          transcribe_array engine sess, true,
          [⟨none, some (transcribe_array engine sess), none⟩,
           ⟨none, none, some "stopped"⟩]⟩
      else
        ⟨⟨app.ring, false, app.finalText⟩, "stopped", app.finalText, false,
          [⟨none, none, some "stopped"⟩]⟩
    | none =>
      ⟨⟨app.ring, false, app.finalText⟩, "stopped", app.finalText, false,
        [⟨none, none, some "stopped"⟩]⟩
  else ⟨app, "already_stopped", app.finalText, false, []⟩

/-- The partial-decode tick body of `worker_loop` (app.py lines 180-186),
taken at an instant where the step timer has fired: given the ring, the current
`final_text` and the loop-local `latest_text`, it returns the updated
`latest_text` and the events published during the tick. -/
def windowTick (engine : List Int → String) (r : Ring) (finalText latestText : String) :
    String × List Event :=
  match r.latest_window windowSamples with
  | none => (latestText, [])
  | some wnd =>
    if transcribe_array engine wnd = "" then (latestText, [])
    else (transcribe_array engine wnd,
          [⟨some (transcribe_array engine wnd), some finalText, none⟩])

/-- The final-decode tick body of `worker_loop` (app.py lines 187-192), taken
at an instant where the final timer has fired: given the ring, the current
`final_text` and `latest_text`, it returns the new `final_text` and the events
published during the tick. -/
def sessionTick (engine : List Int → String) (r : Ring) (finalText latestText : String) :
    String × List Event :=
  match r.session_audio with
  | none => (finalText, [])
  | some sess =>
    if ASR_SR < sess.length then
      (transcribe_array engine sess,
       [⟨some latestText, some (transcribe_array engine sess), none⟩])
    else (finalText, [])

/-- A registered SSE listener: `ok` models whether `q.put_nowait` succeeds on
its queue, and `inbox` the events it has received. -/
structure Listener where
  ok : Bool
  inbox : List Event
deriving DecidableEq

/-- One iteration of the `for q in list(listeners)` loop inside `publish`
(app.py lines 141-147): a successful push keeps the listener (with the event
delivered); a push that raises removes the listener from the registry. -/
def publishStep (e : Event) (acc : List Listener) (l : Listener) : List Listener :=
  if l.ok then acc ++ [⟨l.ok, l.inbox ++ [e]⟩] else acc

/-- The fan-out of `publish(event)` over the listener registry
(app.py lines 135-147). -/
def publishFan (e : Event) (ls : List Listener) : List Listener :=
  ls.foldl (publishStep e) []

theorem ringFeed_session (chunks : List (List Int)) :
    ∀ r : Ring, (ringFeed r chunks).session = r.session ++ chunks := by
  induction chunks with
  | nil => intro r; simp [ringFeed]
  | cons c cs ih =>
    intro r
    have step : ringFeed r (c :: cs) = ringFeed (r.extend c) cs := rfl
    rw [step, ih]
    simp [Ring.extend]

theorem gateRun_replicate_unvoiced (k : Nat) :
    ∀ (r : Ring) (b : Bool) (c : List Int),
      gateRun r ⟨k, b⟩ (List.replicate k (c, false)) =
        (ringFeed r (List.replicate k c), ⟨0, b⟩) := by
  induction k with
  | zero => intro r b c; rfl
  | succ k ih =>
    intro r b c
    have hw : wsFrame r ⟨k + 1, b⟩ c false = (r.extend c, ⟨k, b⟩) := by
      simp [wsFrame]
    calc gateRun r ⟨k + 1, b⟩ (List.replicate (k + 1) (c, false))
        = gateRun (r.extend c) ⟨k, b⟩ (List.replicate k (c, false)) := by
          simp only [List.replicate_succ, gateRun, List.foldl_cons, hw]
      _ = (ringFeed (r.extend c) (List.replicate k c), ⟨0, b⟩) := ih _ _ _
      _ = (ringFeed r (List.replicate (k + 1) c), ⟨0, b⟩) := by
          simp only [List.replicate_succ, ringFeed, List.foldl_cons]

/-- C1 counterexample: the claim "a voiced or hangover-forwarded frame arriving
while the session is not Running is not appended to SessionAudio" is false: the
`/ws` handler never consults `run_flag`, so a voiced frame extends
`ring.session` even when the run flag is clear (concrete input: the initial
ring, gate state `hang = 0`, one voiced one-sample chunk, `run_flag` unset). -/
theorem session_grows_while_not_running :
    ¬ (∀ (app : AppState) (g : GateState) (chunk : List Int) (isVoice : Bool),
        app.runFlag = false →
        (wsIngest app g chunk isVoice).1.ring.session = app.ring.session) := by
  intro h
  have hc := h ⟨ring0, false, ""⟩ ⟨0, false⟩ [0] true rfl
  simp [wsIngest, wsFrame, Ring.extend, ring0, Ring.init] at hc

/-- C1 (amended): the session accumulator grows exactly when the VAD gate
forwards a frame — voiced, or unvoiced with positive hangover — independently
of the run flag, and ingestion never changes the run flag or the final text. -/
theorem session_growth_iff_forwarded (app : AppState) (g : GateState)
    (chunk : List Int) (isVoice : Bool) :
    (wsIngest app g chunk isVoice).1.ring.session =
      (if isVoice = true ∨ 0 < g.hang then app.ring.session ++ [chunk]
       else app.ring.session) ∧
    (wsIngest app g chunk isVoice).1.runFlag = app.runFlag ∧
    (wsIngest app g chunk isVoice).1.finalText = app.finalText := by
  rcases g with ⟨hang, va⟩
  cases isVoice <;> cases hang <;>
    simp [wsIngest, wsFrame, Ring.extend]

/-- C3: the VAD gate obeys the hangover state machine with
`H = VAD_HANGOVER_MS / VAD_FRAME_MS = 15`: a voiced frame is forwarded and
resets the hangover to `H`; an unvoiced frame with positive hangover is
forwarded and decrements it; an unvoiced frame at hangover `0` is dropped,
changing neither buffer; and from hangover `0`, one voiced frame followed by
exactly `H` unvoiced frames appends `H + 1` chunks to the session while the
`(H + 2)`-nd (unvoiced) frame leaves the whole state unchanged. -/
theorem hangover_state_machine :
    hangoverFrames = 15 ∧
    (∀ (r : Ring) (g : GateState) (c : List Int),
        wsFrame r g c true = (r.extend c, ⟨hangoverFrames, true⟩)) ∧
    (∀ (r : Ring) (k : Nat) (b : Bool) (c : List Int),
        wsFrame r ⟨k + 1, b⟩ c false = (r.extend c, ⟨k, b⟩)) ∧
    (∀ (r : Ring) (b : Bool) (c : List Int),
        wsFrame r ⟨0, b⟩ c false = (r, ⟨0, b⟩)) ∧
    (∀ (r : Ring) (c : List Int),
        (gateRun r ⟨0, false⟩
            ((c, true) :: List.replicate hangoverFrames (c, false))).1.session
          = r.session ++ List.replicate (hangoverFrames + 1) c ∧
        gateRun r ⟨0, false⟩
            (((c, true) :: List.replicate hangoverFrames (c, false)) ++ [(c, false)])
          = gateRun r ⟨0, false⟩
              ((c, true) :: List.replicate hangoverFrames (c, false))) := by
  refine ⟨rfl, fun r g c => rfl, fun r k b c => by simp [wsFrame],
      fun r b c => by simp [wsFrame], fun r c => ?_⟩
  have hstep : gateRun r ⟨0, false⟩
      ((c, true) :: List.replicate hangoverFrames (c, false))
      = gateRun (r.extend c) ⟨hangoverFrames, true⟩
          (List.replicate hangoverFrames (c, false)) := by
    simp only [gateRun, List.foldl_cons]
    rfl
  have hrun : gateRun r ⟨0, false⟩
      ((c, true) :: List.replicate hangoverFrames (c, false))
      = (ringFeed (r.extend c) (List.replicate hangoverFrames c), ⟨0, true⟩) := by
    rw [hstep, gateRun_replicate_unvoiced]
  constructor
  · rw [hrun]
    rw [ringFeed_session]
    simp [Ring.extend, List.replicate_succ]
  · have happ : gateRun r ⟨0, false⟩
        (((c, true) :: List.replicate hangoverFrames (c, false)) ++ [(c, false)])
        = wsFrame (ringFeed (r.extend c) (List.replicate hangoverFrames c)) ⟨0, true⟩
            c false := by
      simp only [gateRun, List.foldl_append]
      rw [show ((c, true) :: List.replicate hangoverFrames (c, false)).foldl
            (fun p f => wsFrame p.1 p.2 f.1 f.2) (r, ⟨0, false⟩)
          = (ringFeed (r.extend c) (List.replicate hangoverFrames c), ⟨0, true⟩)
        from hrun]
      rfl
    rw [happ, hrun]
    simp [wsFrame]

/-- C4: calling `start()` while the session is already Running returns status
`already_running` and has no side effects: the shared state (ring buffer,
session accumulator, run flag, final text) is unchanged, no worker thread is
launched, and nothing is published. -/
theorem start_idempotent_no_side_effects (app : AppState) (h : app.runFlag = true) :
    start app = ⟨app, "already_running", false, []⟩ := by
  simp [start, h]

/-- C4 witness: `start` on a concrete already-running state. -/
theorem start_idempotent_witness :
    start ⟨ring0, true, "f"⟩ = ⟨⟨ring0, true, "f"⟩, "already_running", false, []⟩ :=
  start_idempotent_no_side_effects ⟨ring0, true, "f"⟩ rfl

/-- C5: `stop()` is idempotent: for every engine and state, the second of two
consecutive `stop()` calls returns the same final text as the first, with
status `already_stopped` and the stored final text, without invoking the
transcription engine and without publishing anything. -/
theorem stop_idempotent (engine : List Int → String) (app : AppState) :
    (stop engine (stop engine app).state).finalOut = (stop engine app).finalOut ∧
    (stop engine (stop engine app).state).status = "already_stopped" ∧
    (stop engine (stop engine app).state).finalOut
      = (stop engine app).state.finalText ∧
    (stop engine (stop engine app).state).engineCalled = false ∧
    (stop engine (stop engine app).state).events = [] := by
  have hstop : ∀ s : AppState, s.runFlag = false →
      stop engine s = ⟨s, "already_stopped", s.finalText, false, []⟩ := by
    intro s hs
    unfold stop
    simp [hs]
  have h1 : (stop engine app).state.runFlag = false ∧
      (stop engine app).finalOut = (stop engine app).state.finalText := by
    by_cases happ : app.runFlag = true
    · unfold stop
      rcases hs : app.ring.session_audio with _ | sess
      · simp [happ, hs]
      · by_cases hlen : ASR_SR / 2 < sess.length
        · simp [happ, hs, hlen]
        · simp [happ, hs, hlen]
    · unfold stop
      simp [happ]
  rcases h1 with ⟨hflag, hfin⟩
  rw [hstop _ hflag, hfin]
  exact ⟨rfl, rfl, rfl, rfl, rfl⟩

/-- C6 counterexample: the claim that `latest_window` always returns the most
recent `min(len(buffer), n)` samples is false in the degenerate case
`n = int(seconds * sr) = 0`: with `8000` buffered samples the code takes the
numpy slice `a[-0:]`, which is the whole buffer, not the empty suffix. -/
theorem takeLast_zero (l : List Int) : takeLast 0 l = [] := by
  simp [takeLast]

theorem latest_window_of_le (r : Ring) (n : Nat) (h1 : r.sr / 2 ≤ r.buf.length)
    (h2 : r.buf.length ≤ n) : r.latest_window n = some r.buf := by
  unfold Ring.latest_window
  rw [if_neg (by omega), if_pos h2]

theorem session_audio_single (r : Ring) (c : List Int) (h : r.session = [c]) :
    r.session_audio = some c := by
  unfold Ring.session_audio
  rw [h]
  simp

theorem latest_window_cex :
    ¬ (∀ (r : Ring) (n : Nat), r.sr / 2 ≤ r.buf.length →
        r.latest_window n = some (takeLast n r.buf)) := by
  intro h
  have hlen : (List.replicate 8000 (0 : Int)).length = 8000 :=
    List.length_replicate 8000 0
  have hc := h ⟨16000, 1440000, List.replicate 8000 0, []⟩ 0
      (by show (16000 : Nat) / 2 ≤ (List.replicate 8000 (0 : Int)).length
          rw [hlen])
  have hA : (⟨16000, 1440000, List.replicate 8000 0, []⟩ : Ring).latest_window 0
      = some (List.replicate 8000 0) := by
    show (if (List.replicate 8000 (0 : Int)).length < 16000 / 2 then none
          else some (if (List.replicate 8000 (0 : Int)).length ≤ 0
                     then List.replicate 8000 0
                     else npTail 0 (List.replicate 8000 0)))
        = some (List.replicate 8000 0)
    rw [hlen, if_neg (by norm_num), if_neg (by norm_num)]
    unfold npTail
    rw [if_pos rfl]
  rw [hA, takeLast_zero] at hc
  have h2 : (List.replicate 8000 (0 : Int)) = [] := Option.some.inj hc
  have h3 := congrArg List.length h2
  rw [hlen, List.length_nil] at h3
  omega

/-- C6 (amended): `latest_window n` (with `n = int(seconds * sr)`) returns
`None` exactly when the buffer holds fewer than `int(0.5 * sr)` samples;
otherwise, for every `n ≥ 1` it returns the most recent `min(len(buffer), n)`
samples (the buffer's suffix), while in the degenerate case `n = 0` it returns
the entire buffer (numpy `a[-0:]` is `a`); being a pure read, it leaves the
ring unchanged. -/
theorem latest_window_spec (r : Ring) (n : Nat) :
    (r.latest_window n = none ↔ r.buf.length < r.sr / 2) ∧
    (r.sr / 2 ≤ r.buf.length → 1 ≤ n →
      r.latest_window n = some (takeLast n r.buf)) ∧
    (r.sr / 2 ≤ r.buf.length → r.latest_window 0 = some r.buf) := by
  refine ⟨?_, ?_, ?_⟩
  · unfold Ring.latest_window
    by_cases h : r.buf.length < r.sr / 2
    · simp [h]
    · simp [h]
  · intro hmin hn
    unfold Ring.latest_window
    rw [if_neg (by omega)]
    by_cases hlen : r.buf.length ≤ n
    · rw [if_pos hlen, takeLast_of_length_le _ _ hlen]
    · rw [if_neg hlen]
      unfold npTail
      rw [if_neg (by omega)]
  · intro hmin
    unfold Ring.latest_window
    rw [if_neg (by omega)]
    by_cases hlen : r.buf.length ≤ 0
    · rw [if_pos hlen]
    · rw [if_neg hlen]
      unfold npTail
      rw [if_pos rfl]

/-- C6 witness: on a ring holding exactly `0.5 s` of audio the `8 s` window is
available and is the whole buffer. -/
theorem latest_window_spec_witness :
    (⟨16000, 1440000, List.replicate 8000 0, []⟩ : Ring).latest_window windowSamples
      = some (List.replicate 8000 0) := by
  have h := (latest_window_spec ⟨16000, 1440000, List.replicate 8000 0, []⟩
      windowSamples).2.1
      (by show (16000 : Nat) / 2 ≤ (List.replicate 8000 (0 : Int)).length
          rw [List.length_replicate])
      (by norm_num [windowSamples, ASR_SR])
  rw [h, takeLast_of_length_le]
  rw [List.length_replicate]
  norm_num [windowSamples, ASR_SR]

/-- C7: on a partial-decode tick where the window is available, a non-empty
transcription result replaces the latest partial text and exactly one event
carrying the new partial and the current final is published; an empty result
is discarded, leaving the previous partial unchanged and publishing nothing. -/
theorem window_tick_spec (engine : List Int → String) (r : Ring)
    (finalText latestText : String) (wnd : List Int)
    (h : r.latest_window windowSamples = some wnd) :
    (transcribe_array engine wnd = "" →
      windowTick engine r finalText latestText = (latestText, [])) ∧
    (transcribe_array engine wnd ≠ "" →
      windowTick engine r finalText latestText =
        (transcribe_array engine wnd,
         [⟨some (transcribe_array engine wnd), some finalText, none⟩])) := by
  unfold windowTick
  rw [h]
  constructor <;> intro ht <;> simp [ht]

/-- C7 witness: a concrete available window with a non-empty engine result. -/
theorem window_tick_witness :
    windowTick (fun _ => "hi") ⟨16000, 1440000, List.replicate 8000 0, []⟩ "F" "L"
      = ("hi", [⟨some "hi", some "F", none⟩]) := by
  have hw : (⟨16000, 1440000, List.replicate 8000 0, []⟩ : Ring).latest_window
      windowSamples = some (List.replicate 8000 0) :=
    latest_window_of_le _ _
      (by show (16000 : Nat) / 2 ≤ (List.replicate 8000 (0 : Int)).length
          rw [List.length_replicate])
      (by show (List.replicate 8000 (0 : Int)).length ≤ windowSamples
          rw [List.length_replicate]
          norm_num [windowSamples, ASR_SR])
  have ht : transcribe_array (fun _ => "hi") (List.replicate 8000 0) = "hi" := by
    show (if (List.replicate 8000 (0 : Int)).length < ASR_SR / 2 then "" else "hi")
        = "hi"
    rw [if_neg (by rw [List.length_replicate]; norm_num [ASR_SR])]
  have h := (window_tick_spec (fun _ => "hi")
      ⟨16000, 1440000, List.replicate 8000 0, []⟩ "F" "L"
      (List.replicate 8000 0) hw).2 (by rw [ht]; decide)
  rw [h, ht]

/-- C8: on a final-decode tick where the session snapshot exceeds `1 s`
(`16000` samples), the transcription result is assigned to the final text
unconditionally — even an empty string overwrites it — and exactly one event
carrying the current partial and the new final is published. -/
theorem session_tick_spec (engine : List Int → String) (r : Ring)
    (finalText latestText : String) (sess : List Int)
    (h : r.session_audio = some sess) (hlen : ASR_SR < sess.length) :
    sessionTick engine r finalText latestText =
      (transcribe_array engine sess,
       [⟨some latestText, some (transcribe_array engine sess), none⟩]) := by
  unfold sessionTick
  rw [h]
  simp [hlen]

/-- C8 witness: an engine returning the empty string overwrites the previously
non-empty final text `"previous"` with `""`, and the event is still
published. -/
theorem session_tick_witness :
    sessionTick (fun _ => "") ⟨16000, 1440000, [], [List.replicate 16001 0]⟩
        "previous" "L"
      = ("", [⟨some "L", some "", none⟩]) := by
  have hs : (⟨16000, 1440000, [], [List.replicate 16001 0]⟩ : Ring).session_audio
      = some (List.replicate 16001 0) := session_audio_single _ _ rfl
  have hlen : ASR_SR < (List.replicate 16001 (0 : Int)).length := by
    rw [List.length_replicate]
    norm_num [ASR_SR]
  have ht : transcribe_array (fun _ => "") (List.replicate 16001 0) = "" := by
    show (if (List.replicate 16001 (0 : Int)).length < ASR_SR / 2 then "" else "")
        = ""
    exact ite_self ""
  have h := session_tick_spec (fun _ => "")
      ⟨16000, 1440000, [], [List.replicate 16001 0]⟩ "previous" "L"
      (List.replicate 16001 0) hs hlen
  rw [h, ht]

/-- C9: `publish` delivers the event to every listener whose channel accepts
the push and removes from the registry exactly the listeners whose push
raises; as a total function of the registry it neither raises nor blocks the
publisher, and failures of some listeners do not affect delivery to the
others. -/
theorem publish_fanout (e : Event) (ls : List Listener) :
    publishFan e ls =
      (ls.filter fun l => l.ok).map (fun l => ⟨l.ok, l.inbox ++ [e]⟩) := by
  suffices h : ∀ acc : List Listener,
      ls.foldl (publishStep e) acc
        = acc ++ (ls.filter fun l => l.ok).map (fun l => ⟨l.ok, l.inbox ++ [e]⟩) by
    simpa [publishFan] using h []
  induction ls with
  | nil => intro acc; simp
  | cons l ls ih =>
    intro acc
    rcases hl : l.ok
    · simp [publishStep, hl, ih, List.filter_cons]
    · rcases l with ⟨ok, inbox⟩
      simp only at hl
      subst hl
      simp [publishStep, ih, List.filter_cons]

/-- C10: `start()` never resets the stored final text (it clears only the two
audio buffers), so after starting a new session the final text still holds the
previous session's value; consequently a `stop()` issued before any new final
decode (its own session snapshot still empty) returns the previous session's
final text without invoking the engine. -/
theorem start_preserves_final_text (engine : List Int → String) (app : AppState) :
    (start app).state.finalText = app.finalText ∧
    (app.runFlag = false →
      (start app).state.runFlag = true ∧
      (start app).state.ring.session = [] ∧
      (start app).state.ring.buf = [] ∧
      (stop engine (start app).state).status = "stopped" ∧
      (stop engine (start app).state).finalOut = app.finalText ∧
      (stop engine (start app).state).engineCalled = false) := by
  by_cases h : app.runFlag = true
  · refine ⟨by simp [start, h], fun hc => absurd h (by simp [hc])⟩
  · constructor
    · simp [start, h]
    · intro hf
      refine ⟨by simp [start, h], by simp [start, h], by simp [start, h], ?_, ?_, ?_⟩ <;>
        simp [start, h, stop, Ring.session_audio]

/-- C10 witness: a freshly started session stopped immediately returns the
previous session's final text `"prev"` even though a fresh engine would say
`"NEW"`. -/
theorem start_preserves_final_text_witness :
    (stop (fun _ => "NEW") (start ⟨ring0, false, "prev"⟩).state).finalOut
      = "prev" :=
  ((start_preserves_final_text (fun _ => "NEW") ⟨ring0, false, "prev"⟩).2
      rfl).2.2.2.2.1

end App
